import Mathlib

/-!
Shallow embedding of the core of the `generative_agents` Travian fork:
the external bridge (`reverie/backend_server/travian_bridge.py`) and the
step synchronizer loop (`ReverieServer.start_server` in
`reverie/backend_server/reverie.py`).

Python floats (file modification times, event timestamps) are modelled as
`Int`: only their ordering is ever used by the code under study.
Python dicts read from JSON are modelled as structures with `Option`
fields (`none` = key absent), mirroring each `.get(key, default)` in the
source.
-/

namespace TravianBridge

/-- One entry of the `events` list of `bot_state.json`.  Every field is
optional because the source reads each with `event.get(key, default)`. -/
structure BotEvent where
  etype : Option String
  message : Option String
  source : Option String
  target : Option String
  phase : Option String
  timestamp : Option Int
deriving DecidableEq, Repr

/-- `e.get("timestamp", 0)` as used by `get_events_since` and
`consume_new_events`. -/
def tsOf (e : BotEvent) : Int := e.timestamp.getD 0

/-- The `meta` sub-dict of `bot_state.json`. -/
structure BotMeta where
  running : Option Bool
  phase : Option String
  loop_iteration : Option Int
deriving DecidableEq, Repr

/-- The parsed `bot_state.json` snapshot (spec section 6 fixes its top
level keys as `meta`, `villages`, `events`; `villages` contents are
irrelevant to the bridge logic studied here, so a village is kept
abstract as its id). -/
structure BotState where
  meta : Option BotMeta
  villages : Option (List String)
  events : Option (List BotEvent)
deriving DecidableEq, Repr

/-- Python truthiness of the snapshot dict (`if bridge_state:` in
`start_server`): a dict is truthy iff it has at least one key. -/
def stateTruthy (s : BotState) : Bool :=
  s.meta.isSome || s.villages.isSome || s.events.isSome

/-- The mutable fields of a `TravianBridge` object (`__init__`). -/
structure BridgeState where
  last_mtime : Int
  cached_state : BotState
  last_event_ts : Int
  last_phase : String
deriving DecidableEq, Repr

/-- `TravianBridge.__init__`: `_last_mtime = 0.0`, `_cached_state = {}`,
`_last_event_ts = 0.0`, `_last_phase = ""`. -/
def initBridge : BridgeState :=
  { last_mtime := 0, cached_state := ⟨none, none, none⟩,
    last_event_ts := 0, last_phase := "" }

/-- What the filesystem offers at `BOT_STATE_FILE` during one of the
non-raising executions of `poll`: the file is missing, or it is present
with a modification time and a parse outcome (`none` = the read or
`json.load` raises one of the exception classes named in the except
clause, `json.JSONDecodeError`, `OSError`, `IOError`).  This restricted
view deliberately covers only the executions in which `poll` returns;
an exception outside the caught tuple (e.g. `UnicodeDecodeError` from
non-UTF-8 snapshot content) escapes `poll` entirely and is modelled
separately by `FileViewFull` and `pollFull` below. -/
inductive FileView where
  | missing
  | present (mtime : Int) (parsed : Option BotState)
deriving DecidableEq, Repr

/-- `TravianBridge.PHASE_MAP` (`dict.get` lookup as a total function to
`Option`). -/
def PHASE_MAP : String → Option (String × String)
  | "Village Profiles — Loop" => some ("Commander Marcus", "Strategy Hall")
  | "Village Profiles" => some ("Commander Marcus", "Strategy Hall")
  | "Preflight" => some ("Scout Varro", "Scout Tower")
  | "Preflight — Scanning" => some ("Scout Varro", "Scout Tower")
  | "Main Crop Check" => some ("Centurion Titus", "Training Grounds")
  | "Main Crop Emergency" => some ("Centurion Titus", "Training Grounds")
  | "Developed → Grey Zone (support)" => some ("Treasurer Lucius", "Treasury")
  | "Grey Zone Upgrades (plan-driven)" => some ("Builder Gaius", "Construction Yard")
  | "Developed → Main (overflow)" => some ("Treasurer Lucius", "Treasury")
  | "Developed → Developing (support)" => some ("Treasurer Lucius", "Treasury")
  | "Developing Upgrades (plan-driven)" => some ("Builder Gaius", "Construction Yard")
  | "Developing → Main (excess)" => some ("Treasurer Lucius", "Treasury")
  | "Focus" => some ("Strategist Livia", "Focus Chamber")
  | "Developed Crop → Developing" => some ("Treasurer Lucius", "Treasury")
  | "Training" => some ("Centurion Titus", "Training Grounds")
  | "Main Fields" => some ("Builder Gaius", "Construction Yard")
  | "Developed Training" => some ("Centurion Titus", "Training Grounds")
  | "init" => some ("Commander Marcus", "Strategy Hall")
  | "Cycle Complete" => some ("Commander Marcus", "Briefing Room")
  | _ => none

/-- `TravianBridge.EVENT_TYPE_TO_PERSONA`. -/
def EVENT_TYPE_TO_PERSONA : String → Option String
  | "resource_send" => some "Treasurer Lucius"
  | "resource_receive" => some "Treasurer Lucius"
  | "build_start" => some "Builder Gaius"
  | "build_complete" => some "Builder Gaius"
  | "train_start" => some "Centurion Titus"
  | "train_complete" => some "Centurion Titus"
  | "dodge_triggered" => some "Sentinel Felix"
  | "attack_detected" => some "Sentinel Felix"
  | "focus_action" => some "Strategist Livia"
  | "profile_update" => some "Archivist Petra"
  | "preflight_scan" => some "Scout Varro"
  | "validation_error" => some "Validator Quintus"
  | "phase_change" => some "Commander Marcus"
  | _ => none

/-- `TravianBridge.poll`: returns the state dict if the file exists, its
mtime strictly exceeds `_last_mtime`, and parsing succeeds — in which
case `_last_mtime` and `_cached_state` are updated; in every other case
(missing file, stale mtime, caught read/parse exception) it returns
`None` with the bridge state unchanged. -/
def poll (fv : FileView) (b : BridgeState) : Option BotState × BridgeState :=
  match fv with
  | .missing => (none, b)
  | .present mtime parsed =>
    if mtime ≤ b.last_mtime then (none, b)
    else
      match parsed with
      | none => (none, b)
      | some st => (some st, { b with last_mtime := mtime, cached_state := st })

/-- The dict `self._cached_state.get("meta", {})`. -/
def metaOf (b : BridgeState) : BotMeta :=
  b.cached_state.meta.getD ⟨none, none, none⟩

/-- `TravianBridge.get_phase`. -/
def get_phase (b : BridgeState) : String :=
  (metaOf b).phase.getD "init"

/-- `TravianBridge.is_running`. -/
def is_running (b : BridgeState) : Bool :=
  (metaOf b).running.getD false

/-- `TravianBridge.get_loop_iteration`. -/
def get_loop_iteration (b : BridgeState) : Int :=
  (metaOf b).loop_iteration.getD 0

/-- `self._cached_state.get("events", [])`. -/
def eventsOf (b : BridgeState) : List BotEvent :=
  b.cached_state.events.getD []

/-- `TravianBridge.get_events_since`. -/
def get_events_since (b : BridgeState) (since_ts : Int) : List BotEvent :=
  (eventsOf b).filter (fun e => decide (since_ts < tsOf e))

/-- `TravianBridge.get_active_persona`. -/
def get_active_persona (b : BridgeState) : String × String :=
  let meta := b.cached_state.meta.getD ⟨none, none, none⟩
  let phase := meta.phase.getD "init"
  (PHASE_MAP phase).getD ("Commander Marcus", "Strategy Hall")

/-- `max(e.get("timestamp", 0) for e in events)` over the nonempty list
`h :: t`. -/
def maxTs (h : BotEvent) (t : List BotEvent) : Int :=
  t.foldl (fun a e => max a (tsOf e)) (tsOf h)

/-- `TravianBridge.consume_new_events`: returns the events newer than
`_last_event_ts` and, when there are any, advances `_last_event_ts` to
their maximum timestamp (`max(e.get("timestamp", 0) for e in events)`). -/
def consume_new_events (b : BridgeState) : List BotEvent × BridgeState :=
  match get_events_since b b.last_event_ts with
  | [] => ([], b)
  | h :: t => (h :: t, { b with last_event_ts := maxTs h t })

/-- `TravianBridge.has_phase_changed`. -/
def has_phase_changed (b : BridgeState) : Bool × BridgeState :=
  let current := get_phase b
  if current ≠ b.last_phase then (true, { b with last_phase := current })
  else (false, b)

/-- Python `a or b` for strings (empty string is falsy). -/
def pyOr (a b : String) : String := if a = "" then b else a

/-- `TravianBridge.event_to_thought`. -/
def event_to_thought (event : BotEvent) : String × String :=
  let event_type := event.etype.getD ""
  let message := event.message.getD ""
  let source := event.source.getD ""
  let target := event.target.getD ""
  let phase := event.phase.getD ""
  let persona := (EVENT_TYPE_TO_PERSONA event_type).getD "Commander Marcus"
  let thought :=
    if event_type = "resource_send" then
      s!"I just sent resources from {source} to {target}. {message}"
    else if event_type = "build_start" then
      let v := pyOr source (pyOr target "unknown")
      s!"I started a new building upgrade: {message}. Village: {v}."
    else if event_type = "build_complete" then
      let v := pyOr source (pyOr target "unknown")
      s!"A building upgrade completed: {message}. Village: {v}."
    else if event_type = "train_start" then
      let v := pyOr source (pyOr target "the barracks")
      s!"I began training troops: {message}. At: {v}."
    else if event_type = "dodge_triggered" ∨ event_type = "attack_detected" then
      let v := pyOr target (pyOr source "unknown")
      s!"ALERT! {message}. Village under threat: {v}. I must take immediate defensive action!"
    else if event_type = "focus_action" then
      let v := pyOr target (pyOr source "unknown")
      s!"Focus plan action: {message}. Target village: {v}."
    else if event_type = "phase_change" then
      s!"The operational phase has changed to: {phase}. {message}"
    else
      let t1 := message
      let t2 := if source ≠ "" then t1 ++ s!" (from {source})" else t1
      let t3 := if target ≠ "" then t2 ++ s!" (to {target})" else t2
      t3
  (persona, thought)

/-- The `descriptions` table inside `get_phase_description`. -/
def phaseDescriptions : String → Option String
  | "Village Profiles — Loop" => some "Commander Marcus is reviewing village classifications and tier assignments."
  | "Preflight" => some "Scout Varro is running reconnaissance scans across all villages."
  | "Main Crop Check" => some "Centurion Titus is checking if the main village has a crop emergency."
  | "Developed → Grey Zone (support)" => some "Treasurer Lucius is sending support resources to grey zone villages."
  | "Grey Zone Upgrades (plan-driven)" => some "Builder Gaius is upgrading buildings in grey zone villages."
  | "Developed → Main (overflow)" => some "Treasurer Lucius is transferring overflow resources to the main village."
  | "Developed → Developing (support)" => some "Treasurer Lucius is sending support to developing villages."
  | "Developing Upgrades (plan-driven)" => some "Builder Gaius is upgrading buildings in developing villages."
  | "Developing → Main (excess)" => some "Treasurer Lucius is transferring excess resources back to main."
  | "Focus" => some "Strategist Livia is executing special focus plan actions."
  | "Developed Crop → Developing" => some "Treasurer Lucius is redistributing crop to developing villages."
  | "Training" => some "Centurion Titus is training troops across the empire."
  | "Main Fields" => some "Builder Gaius is upgrading resource fields in the main village."
  | "Developed Training" => some "Centurion Titus is training defense troops in developed villages."
  | "Cycle Complete" => some "The operational cycle is complete. All managers are resting."
  | _ => none

/-- `TravianBridge.get_phase_description`. -/
def get_phase_description (b : BridgeState) : String :=
  let phase := get_phase b
  let loop := get_loop_iteration b
  let running := is_running b
  if !running then
    "The Travian Bot is currently offline. All managers are on standby."
  else
    let desc := (phaseDescriptions phase).getD s!"Current phase: {phase}"
    s!"[Loop {loop}] {desc}"

/-- Whispers produced by the FOLD_BRIDGE block of
`ReverieServer.start_server` (reverie.py lines 452-479): the optional
phase-change whisper for Commander Marcus and the capped list of event
whispers. -/
structure FoldOut where
  phase_whisper : Option (String × String)
  event_whispers : List (String × String)
deriving DecidableEq, Repr

/-- The FOLD_BRIDGE block of `start_server`: poll the bridge; if it
returned a truthy dict, run the edge-triggered phase check (whispering
the phase description to Commander Marcus when he exists), then consume
the new events and route the first 5 of them (`new_events[:5]`) to their
responsible personas, keeping only whispers whose persona is present. -/
def foldBridge (personas : List String) (fv : FileView) (b : BridgeState) :
    FoldOut × BridgeState :=
  let pr := poll fv b
  match pr.1 with
  | none => (⟨none, []⟩, pr.2)
  | some st =>
    if stateTruthy st then
      let hc := has_phase_changed pr.2
      let pw :=
        if hc.1 ∧ personas.contains "Commander Marcus" then
          some ("Commander Marcus", get_phase_description hc.2)
        else none
      let ce := consume_new_events hc.2
      let whispers := (ce.1.take 5).filterMap (fun e =>
        let pt := event_to_thought e
        if personas.contains pt.1 then some pt else none)
      (⟨pw, whispers⟩, ce.2)
    else (⟨none, []⟩, pr.2)

/-- Replace the cached snapshot's event list (models the foreign process
appending to `events` and the bridge having re-read the file). -/
def setEvents (b : BridgeState) (es : List BotEvent) : BridgeState :=
  { b with cached_state := { b.cached_state with events := some es } }

/-- Repeated calls to `consume_new_events`, the snapshot being extended
by one appended chunk of events before each call (append-only evolution
of the foreign `events` list).  Returns the concatenation of all
returned batches. -/
def consumeRun (b : BridgeState) : List (List BotEvent) → List BotEvent
  | [] => []
  | chunk :: rest =>
    let b1 := setEvents b (eventsOf b ++ chunk)
    let ce := consume_new_events b1
    ce.1 ++ consumeRun ce.2 rest

/-- One public bridge operation, for stating cursor invariants over
arbitrary call sequences.  `readOp` stands for any of the pure accessors
(`state`, `get_phase`, `is_running`, `get_loop_iteration`,
`get_active_persona`, `get_events_since`, `event_to_thought`,
`get_phase_description`, `get_village_summary`), none of which writes
the bridge state. -/
inductive BridgeOp where
  | pollOp (fv : FileView)
  | consumeOp
  | phaseChangedOp
  | readOp
deriving DecidableEq, Repr

/-- State effect of one public bridge operation. -/
def applyOp (op : BridgeOp) (b : BridgeState) : BridgeState :=
  match op with
  | .pollOp fv => (poll fv b).2
  | .consumeOp => (consume_new_events b).2
  | .phaseChangedOp => (has_phase_changed b).2
  | .readOp => b

/-- State effect of a sequence of public bridge operations. -/
def applyOps (ops : List BridgeOp) (b : BridgeState) : BridgeState :=
  ops.foldl (fun s op => applyOp op s) b

end TravianBridge

namespace Reverie

open TravianBridge

/-- A tile coordinate `(x, y)` as read from the environment file. -/
abbrev Pos := Int × Int

/-- A tile-ledger event: the 4-tuple
`(subject, predicate, object, description)`;
a blank event is `(subject, None, None, None)`. -/
abbrev GameEvent := String × Option String × Option String × Option String

/-- The blank form of an event: `(ev[0], None, None, None)`
(reverie.py line 448). -/
def blankOf (ev : GameEvent) : GameEvent := (ev.1, none, none, none)

/-- The tile-event ledger: the events held at each tile. -/
def Maze := Pos → List GameEvent

/-- Modelled from the spec: `Maze.add_event_from_tile` lives in
`maze.py`, which is not under `src/`; spec section 4.1 — inserts the
event into the tile's event set, a no-op if an identical event is
already present. -/
def add_event_from_tile (m : Maze) (ev : GameEvent) (t : Pos) : Maze :=
  fun t' => if t' = t then (if ev ∈ m t then m t else m t ++ [ev]) else m t'

/-- Modelled from the spec: `Maze.remove_event_from_tile` lives in
`maze.py`, which is not under `src/`; spec section 4.1 — removes the
exact matching event, no error if absent. -/
def remove_event_from_tile (m : Maze) (ev : GameEvent) (t : Pos) : Maze :=
  fun t' => if t' = t then (m t).filter (fun e => decide (e ≠ ev)) else m t'

/-- Modelled from the spec: `Maze.remove_subject_events_from_tile` lives
in `maze.py`, which is not under `src/`; spec section 4.1 — removes
every event at the tile whose subject matches, regardless of the other
components. -/
def remove_subject_events_from_tile (m : Maze) (subject : String) (t : Pos) : Maze :=
  fun t' => if t' = t then (m t).filter (fun e => decide (e.1 ≠ subject)) else m t'

/-- Modelled from the spec: `Maze.turn_event_from_tile_idle` lives in
`maze.py`, which is not under `src/`; spec section 4.1 — replaces a
non-blank event with its blank form `(subject, null, null, null)` at the
tile. -/
def turn_event_from_tile_idle (m : Maze) (ev : GameEvent) (t : Pos) : Maze :=
  add_event_from_tile (remove_event_from_tile m ev t) (blankOf ev) t

/-- Insertion into an insertion-ordered dict (Python
`d[k] = v`): overwrites the value of an existing key in place, else
appends the pair. -/
def dictInsert {α β : Type} [DecidableEq α] (k : α) (v : β) :
    List (α × β) → List (α × β)
  | [] => [(k, v)]
  | (k', v') :: t => if k' = k then (k, v) :: t else (k', v') :: dictInsert k v t

/-- The result of one `persona.move(...)` call: next tile, emoji,
description, pending chat. -/
structure Decision where
  next_tile : Pos
  pronunciatio : String
  description : String
  chat : String
deriving DecidableEq, Repr

/-- Per-persona data for one cycle of `start_server`.
`pos` is the persona's entry in the environment file
(`new_env[name]["x"], new_env[name]["y"]`); `none` means decoding it
raises.  `curr_event` is `persona.scratch.get_curr_event_and_desc()`,
`obj_event` is `persona.scratch.get_curr_obj_event_and_desc()`,
`planned_path_empty` is `not persona.scratch.planned_path`.
`decision` is what `persona.move(...)` returns; `none` means the
decision raises.  (Persona cognition is an external collaborator — spec
section 6 — so these are oracle inputs.) -/
structure AgentIn where
  name : String
  pos : Option Pos
  curr_event : GameEvent
  obj_event : GameEvent
  planned_path_empty : Bool
  decision : Option Decision
deriving DecidableEq, Repr

/-- Content of one movement output file: the per-persona decisions and
the `meta.curr_time` stamp. -/
structure Movements where
  persona : List (String × Decision)
  meta_curr_time : Int
deriving DecidableEq, Repr

/-- What one iteration of the `start_server` while-loop encounters:
the environment file for the current step is absent, or present but
`json.load` raises (caught by the bare `except`), or parsed, together
with the per-persona oracle data and the bridge's file view for this
cycle. -/
inductive CycleIn where
  | absent
  | unparsable
  | parsed (agents : List AgentIn) (fv : FileView)

/-- An uncaught exception inside the loop body. -/
inductive SimError where
  | decodeError (agent : String)
  | decisionError (agent : String)
deriving DecidableEq, Repr

/-- The mutable `ReverieServer` state touched by `start_server`. -/
structure SimState where
  step : Nat
  curr_time : Int
  sec_per_step : Int
  personas_tile : String → Pos
  maze : Maze
  bridge : BridgeState
  game_obj_cleanup : List (GameEvent × Pos)

/-- The cleanup loop at the top of a successful cycle (reverie.py lines
412-419): turn every recorded object action idle, then reset
`game_obj_cleanup`. -/
def idleAll : List (GameEvent × Pos) → Maze → Maze
  | [], m => m
  | (ev, t) :: rest, m => idleAll rest (turn_event_from_tile_idle m ev t)

/-- `game_obj_cleanup` drain plus reset, as run before the position
reconciliation of a successful cycle. -/
def cleanupPhase (s : SimState) : SimState :=
  { s with maze := idleAll s.game_obj_cleanup s.maze, game_obj_cleanup := [] }

/-- Position reconciliation for one persona (reverie.py lines 423-450).
An error is the name of the persona whose position failed to decode,
together with the state as already mutated by the earlier personas. -/
def moveOne (s : SimState) (a : AgentIn) : Except (String × SimState) SimState :=
  match a.pos with
  | none => .error (a.name, s)
  | some new_tile =>
    let curr_tile := s.personas_tile a.name
    let pt := fun n => if n = a.name then new_tile else s.personas_tile n
    let m1 := remove_subject_events_from_tile s.maze a.name curr_tile
    let m2 := add_event_from_tile m1 a.curr_event new_tile
    if a.planned_path_empty then
      let cleanup := dictInsert a.obj_event new_tile s.game_obj_cleanup
      let m3 := add_event_from_tile m2 a.obj_event new_tile
      let m4 := remove_event_from_tile m3 (blankOf a.obj_event) new_tile
      .ok { s with personas_tile := pt, maze := m4, game_obj_cleanup := cleanup }
    else
      .ok { s with personas_tile := pt, maze := m2 }

/-- Position reconciliation over all personas, in order. -/
def movePersonas (s : SimState) : List AgentIn → Except (String × SimState) SimState
  | [] => .ok s
  | a :: rest =>
    match moveOne s a with
    | .error e => .error e
    | .ok s' => movePersonas s' rest

/-- The decision loop (reverie.py lines 497-511): call `persona.move`
for each persona in order, collecting the movements dict; an error is
the first persona whose decision raises. -/
def collectMoves : List AgentIn → Except String (List (String × Decision))
  | [] => .ok []
  | a :: rest =>
    match a.decision with
    | none => .error a.name
    | some d =>
      match collectMoves rest with
      | .error e => .error e
      | .ok l => .ok ((a.name, d) :: l)

/-- One iteration of the `start_server` while-loop body (after the
`int_counter == 0` check).  `.ok (none, s)` means nothing happened this
iteration (no environment file, or `json.load` raised and was caught);
`.ok (some (key, mv), s')` means a full successful cycle that wrote
movement file `key.json` and advanced step and clock; `.error` is an
uncaught exception escaping the loop, paired with the state at the
moment it was raised. -/
def runCycle (ci : CycleIn) (s : SimState) :
    Except (SimError × SimState) (Option (Nat × Movements) × SimState) :=
  match ci with
  | .absent => .ok (none, s)
  | .unparsable => .ok (none, s)
  | .parsed agents fv =>
    let s1 := cleanupPhase s
    match movePersonas s1 agents with
    | .error (n, sErr) => .error (.decodeError n, sErr)
    | .ok s2 =>
      let s3 := { s2 with
        bridge := (foldBridge (agents.map (·.name)) fv s2.bridge).2 }
      match collectMoves agents with
      | .error n => .error (.decisionError n, s3)
      | .ok moves =>
        let mv : Movements := ⟨moves, s3.curr_time⟩
        .ok (some (s3.step, mv),
          { s3 with step := s3.step + 1,
                    curr_time := s3.curr_time + s3.sec_per_step })

/-- Outcome of running the loop against a finite trace of cycle inputs:
`finished` — `int_counter` reached 0 and the loop broke; `running` — the
trace is exhausted with budget left (the loop would keep polling);
`crashed` — an uncaught exception escaped.  Each carries the movement
files written so far, keyed by step. -/
inductive RunOut where
  | finished (s : SimState) (outs : List (Nat × Movements))
  | running (counter : Nat) (s : SimState) (outs : List (Nat × Movements))
  | crashed (e : SimError) (s : SimState) (outs : List (Nat × Movements))

/-- The `start_server` while-loop: check the budget, run one cycle,
decrement the budget only on a fully successful cycle. -/
def runSim : Nat → SimState → List CycleIn → RunOut
  | 0, s, _ => .finished s []
  | n + 1, s, [] => .running (n + 1) s []
  | n + 1, s, ci :: rest =>
    match runCycle ci s with
    | .error (e, s') => .crashed e s' []
    | .ok (none, s') => runSim (n + 1) s' rest
    | .ok (some out, s') =>
      match runSim n s' rest with
      | .finished s'' outs => .finished s'' (out :: outs)
      | .running c s'' outs => .running c s'' (out :: outs)
      | .crashed e s'' outs => .crashed e s'' (out :: outs)

/-- The uncaught error of a run, if any. -/
def RunOut.errOf : RunOut → Option SimError
  | .crashed e _ _ => some e
  | _ => none

/-- The movement files written during a run. -/
def RunOut.outsOf : RunOut → List (Nat × Movements)
  | .finished _ outs => outs
  | .running _ _ outs => outs
  | .crashed _ _ outs => outs

/-- The final (or crash-time) server state of a run. -/
def RunOut.stateOf : RunOut → SimState
  | .finished s _ => s
  | .running _ s _ => s
  | .crashed _ s _ => s

/-- A cycle input that raises no uncaught exception: either no
environment file was consumed, or every persona's position decodes and
every persona's decision returns. -/
def cycleOK : CycleIn → Prop
  | .absent => True
  | .unparsable => True
  | .parsed agents _ => ∀ a ∈ agents, a.pos.isSome ∧ a.decision.isSome

/-- Whether a cycle input completes a full cycle (environment file
present and parsed). -/
def isParsedIn : CycleIn → Bool
  | .parsed _ _ => true
  | _ => false

end Reverie

namespace TravianBridge

lemma le_foldl_maxTs (l : List BotEvent) :
    ∀ a : Int, a ≤ l.foldl (fun acc e => max acc (tsOf e)) a := by
  induction l with
  | nil => intro a; exact le_refl a
  | cons e l ih =>
    intro a
    exact le_trans (le_max_left a (tsOf e)) (ih (max a (tsOf e)))

lemma mem_le_foldl_maxTs (l : List BotEvent) :
    ∀ (a : Int) (x : BotEvent), x ∈ l →
      tsOf x ≤ l.foldl (fun acc e => max acc (tsOf e)) a := by
  induction l with
  | nil => intro a x hx; cases hx
  | cons e l ih =>
    intro a x hx
    rcases List.mem_cons.mp hx with h | h
    · subst h
      exact le_trans (le_max_right a (tsOf x)) (le_foldl_maxTs l _)
    · exact ih _ x h

lemma foldl_maxTs_lt (l : List BotEvent) :
    ∀ (a z : Int), a < z → (∀ x ∈ l, tsOf x < z) →
      l.foldl (fun acc e => max acc (tsOf e)) a < z := by
  induction l with
  | nil => intro a z ha _; exact ha
  | cons e l ih =>
    intro a z ha hl
    exact ih _ z (max_lt ha (hl e (List.mem_cons_self e l)))
      (fun x hx => hl x (List.mem_cons_of_mem e hx))

lemma foldl_maxTs_attained (l : List BotEvent) :
    ∀ a : Int, l.foldl (fun acc e => max acc (tsOf e)) a = a ∨
      ∃ x ∈ l, l.foldl (fun acc e => max acc (tsOf e)) a = tsOf x := by
  induction l with
  | nil => intro a; exact Or.inl rfl
  | cons e l ih =>
    intro a
    rcases ih (max a (tsOf e)) with h | ⟨x, hx, hfx⟩
    · rcases max_choice a (tsOf e) with hm | hm
      · exact Or.inl (by simpa [hm] using h)
      · exact Or.inr ⟨e, List.mem_cons_self e l, by simpa [hm] using h⟩
    · exact Or.inr ⟨x, List.mem_cons_of_mem e hx, hfx⟩

lemma le_maxTs (h : BotEvent) (t : List BotEvent) : tsOf h ≤ maxTs h t :=
  le_foldl_maxTs t (tsOf h)

lemma mem_le_maxTs (h : BotEvent) (t : List BotEvent) :
    ∀ x ∈ h :: t, tsOf x ≤ maxTs h t := by
  intro x hx
  rcases List.mem_cons.mp hx with hh | hh
  · subst hh; exact le_maxTs x t
  · exact mem_le_foldl_maxTs t (tsOf h) x hh

lemma maxTs_lt (h : BotEvent) (t : List BotEvent) (z : Int)
    (hh : tsOf h < z) (ht : ∀ x ∈ t, tsOf x < z) : maxTs h t < z :=
  foldl_maxTs_lt t (tsOf h) z hh ht

lemma maxTs_attained (h : BotEvent) (t : List BotEvent) :
    ∃ x ∈ h :: t, maxTs h t = tsOf x := by
  rcases foldl_maxTs_attained t (tsOf h) with h0 | ⟨x, hx, hfx⟩
  · exact ⟨h, List.mem_cons_self h t, h0⟩
  · exact ⟨x, List.mem_cons_of_mem h hx, hfx⟩

lemma mem_get_events_since {b : BridgeState} {ts : Int} {e : BotEvent} :
    e ∈ get_events_since b ts ↔ e ∈ eventsOf b ∧ ts < tsOf e := by
  unfold get_events_since
  simp [List.mem_filter]

lemma consume_batch (b : BridgeState) :
    (consume_new_events b).1 = get_events_since b b.last_event_ts := by
  unfold consume_new_events
  split
  · next heq => simp [heq]
  · next h t heq => simp [heq]

lemma consume_snd_nil {b : BridgeState}
    (h : get_events_since b b.last_event_ts = []) :
    (consume_new_events b).2 = b := by
  unfold consume_new_events
  rw [h]

lemma consume_snd_cons {b : BridgeState} {h : BotEvent} {t : List BotEvent}
    (hh : get_events_since b b.last_event_ts = h :: t) :
    (consume_new_events b).2 = { b with last_event_ts := maxTs h t } := by
  unfold consume_new_events
  rw [hh]

lemma consume_cached (b : BridgeState) :
    (consume_new_events b).2.cached_state = b.cached_state := by
  unfold consume_new_events
  split <;> rfl

lemma consume_mtime (b : BridgeState) :
    (consume_new_events b).2.last_mtime = b.last_mtime := by
  unfold consume_new_events
  split <;> rfl

lemma consume_ts_mono (b : BridgeState) :
    b.last_event_ts ≤ (consume_new_events b).2.last_event_ts := by
  rcases heq : get_events_since b b.last_event_ts with _ | ⟨h, t⟩
  · rw [consume_snd_nil heq]
  · rw [consume_snd_cons heq]
    have hmem : h ∈ get_events_since b b.last_event_ts := by
      rw [heq]; exact List.mem_cons_self h t
    have hlt : b.last_event_ts < tsOf h := (mem_get_events_since.mp hmem).2
    exact le_of_lt (lt_of_lt_of_le hlt (le_maxTs h t))

lemma consume_drains (b : BridgeState) :
    ∀ e ∈ eventsOf b, tsOf e ≤ (consume_new_events b).2.last_event_ts := by
  intro e he
  by_cases hlt : b.last_event_ts < tsOf e
  · have hmem : e ∈ get_events_since b b.last_event_ts :=
      mem_get_events_since.mpr ⟨he, hlt⟩
    rcases heq : get_events_since b b.last_event_ts with _ | ⟨h, t⟩
    · rw [heq] at hmem; cases hmem
    · rw [consume_snd_cons heq]
      rw [heq] at hmem
      exact mem_le_maxTs h t e hmem
  · exact le_trans (le_of_not_lt hlt) (consume_ts_mono b)

lemma poll_mtime_mono (fv : FileView) (b : BridgeState) :
    b.last_mtime ≤ (poll fv b).2.last_mtime := by
  unfold poll
  cases fv with
  | missing => exact le_refl _
  | present m p =>
    by_cases hm : m ≤ b.last_mtime
    · simp [hm]
    · cases p with
      | none => simp [hm]
      | some st => simp [hm]; exact le_of_lt (lt_of_not_le hm)

lemma poll_ts_eq (fv : FileView) (b : BridgeState) :
    (poll fv b).2.last_event_ts = b.last_event_ts := by
  unfold poll
  cases fv with
  | missing => rfl
  | present m p =>
    by_cases hm : m ≤ b.last_mtime
    · simp [hm]
    · cases p with
      | none => simp [hm]
      | some st => simp [hm]

lemma poll_phase_eq (fv : FileView) (b : BridgeState) :
    (poll fv b).2.last_phase = b.last_phase := by
  unfold poll
  cases fv with
  | missing => rfl
  | present m p =>
    by_cases hm : m ≤ b.last_mtime
    · simp [hm]
    · cases p with
      | none => simp [hm]
      | some st => simp [hm]

lemma poll_some_cached {fv : FileView} {b : BridgeState} {st : BotState}
    (h : (poll fv b).1 = some st) : (poll fv b).2.cached_state = st := by
  unfold poll at h ⊢
  cases fv with
  | missing => cases h
  | present m p =>
    by_cases hm : m ≤ b.last_mtime
    · simp [hm] at h
    · cases p with
      | none => simp [hm] at h
      | some st' =>
        simp [hm] at h ⊢
        exact h

lemma hpc_cached (b : BridgeState) :
    (has_phase_changed b).2.cached_state = b.cached_state := by
  by_cases h : get_phase b ≠ b.last_phase <;> simp [has_phase_changed, h]

lemma hpc_ts (b : BridgeState) :
    (has_phase_changed b).2.last_event_ts = b.last_event_ts := by
  by_cases h : get_phase b ≠ b.last_phase <;> simp [has_phase_changed, h]

lemma hpc_mtime (b : BridgeState) :
    (has_phase_changed b).2.last_mtime = b.last_mtime := by
  by_cases h : get_phase b ≠ b.last_phase <;> simp [has_phase_changed, h]

end TravianBridge

namespace TravianBridge

/-- The state transformation of one `has_phase_changed` call. -/
def hpcState (b : BridgeState) : BridgeState := (has_phase_changed b).2

lemma get_phase_hpcState (b : BridgeState) :
    get_phase (hpcState b) = get_phase b := by
  unfold get_phase metaOf
  rw [show (hpcState b).cached_state = b.cached_state from hpc_cached b]

lemma hpcState_last_phase (b : BridgeState) :
    (hpcState b).last_phase = get_phase b := by
  by_cases h : get_phase b ≠ b.last_phase <;>
    simp [hpcState, has_phase_changed, h]
  exact (not_ne_iff.mp h).symm

lemma hpc_of_fixed (b : BridgeState) (h : b.last_phase = get_phase b) :
    has_phase_changed b = (false, b) := by
  simp [has_phase_changed, h]

lemma hpcState_iterate_fixed (b : BridgeState)
    (h : b.last_phase = get_phase b) : ∀ n : Nat, hpcState^[n] b = b := by
  intro n
  induction n with
  | zero => rfl
  | succ n ih =>
    rw [Function.iterate_succ_apply', ih]
    simp [hpcState, hpc_of_fixed b h]

/-- C4: `has_phase_changed` is edge-triggered: a call returns true iff
the phase currently reported by `get_phase` differs from the phase
stored at the previous call; the call stores the current phase (and
touches nothing else), so any number of further calls while the phase
is unchanged all return false. -/
theorem has_phase_changed_edge_triggered (b : BridgeState) :
    ((has_phase_changed b).1 = true ↔ get_phase b ≠ b.last_phase) ∧
    (has_phase_changed b).2.last_phase = get_phase b ∧
    (has_phase_changed b).2.cached_state = b.cached_state ∧
    (has_phase_changed b).2.last_mtime = b.last_mtime ∧
    (has_phase_changed b).2.last_event_ts = b.last_event_ts ∧
    ∀ n : Nat, (has_phase_changed (hpcState^[n] (hpcState b))).1 = false := by
  refine ⟨?_, hpcState_last_phase b, hpc_cached b, hpc_mtime b, hpc_ts b, ?_⟩
  · by_cases h : get_phase b ≠ b.last_phase <;> simp [has_phase_changed, h]
  · intro n
    have hfix : (hpcState b).last_phase = get_phase (hpcState b) := by
      rw [hpcState_last_phase b, get_phase_hpcState b]
    rw [hpcState_iterate_fixed (hpcState b) hfix n,
        hpc_of_fixed (hpcState b) hfix]

/-- Outcome of the body of `poll`'s try block once the mtime check has
passed: `json.load` returns a state; or the read/parse raises one of
the exception classes named in the except clause
(`json.JSONDecodeError`, `OSError`, `IOError`); or it raises an
exception outside that tuple (e.g. `UnicodeDecodeError` while decoding
non-UTF-8 snapshot content, a `ValueError` that is not a
`JSONDecodeError`), which the except clause does not catch. -/
inductive ReadResult where
  | value (st : BotState)
  | caughtError
  | uncaughtError
deriving DecidableEq, Repr

/-- What the filesystem offers at `BOT_STATE_FILE` during one `poll`,
with the read/parse outcome in full — unlike `FileView`, this also
represents the executions in which the read raises an exception the
except clause does not catch. -/
inductive FileViewFull where
  | missing
  | present (mtime : Int) (read : ReadResult)
deriving DecidableEq, Repr

/-- An exception escaping `poll` to its caller. -/
inductive PyError where
  | uncaughtReadError
deriving DecidableEq, Repr

/-- `TravianBridge.poll` with its exception behavior made explicit:
the clause `except (json.JSONDecodeError, OSError, IOError)` turns
exactly those read/parse failures into a `None` return; an exception
outside the tuple propagates to the caller, and the bridge fields are
left unchanged because `_last_mtime` and `_cached_state` are assigned
only after `json.load` has returned. -/
def pollFull (fv : FileViewFull) (b : BridgeState) :
    Except PyError (Option BotState × BridgeState) :=
  match fv with
  | .missing => .ok (none, b)
  | .present mtime read =>
    if mtime ≤ b.last_mtime then .ok (none, b)
    else
      match read with
      | .value st =>
        .ok (some st, { b with last_mtime := mtime, cached_state := st })
      | .caughtError => .ok (none, b)
      | .uncaughtError => .error .uncaughtReadError

/-- The `FileView` corresponding to a full file view, identifying the
two error outcomes. -/
def FileViewFull.toFileView : FileViewFull → FileView
  | .missing => .missing
  | .present mtime (.value st) => .present mtime (some st)
  | .present mtime .caughtError => .present mtime none
  | .present mtime .uncaughtError => .present mtime none

/-- A file view whose read outcome is not an uncaught exception. -/
def FileViewFull.noRaise : FileViewFull → Prop
  | .present _ .uncaughtError => False
  | _ => True

/-- On every non-raising execution, `pollFull` and the restricted `poll`
used by the rest of the development agree. -/
lemma pollFull_agrees (fv : FileViewFull) (b : BridgeState)
    (h : fv.noRaise) : pollFull fv b = .ok (poll fv.toFileView b) := by
  cases fv with
  | missing => rfl
  | present mtime read =>
    cases read with
    | value st =>
      unfold pollFull poll FileViewFull.toFileView
      by_cases hm : mtime ≤ b.last_mtime <;> simp [hm]
    | caughtError =>
      unfold pollFull poll FileViewFull.toFileView
      by_cases hm : mtime ≤ b.last_mtime <;> simp [hm]
    | uncaughtError => exact h.elim

/-- C5 counterexample: `poll` CAN raise to its caller.  With the
snapshot file present and strictly newer than the cursor, a read whose
exception falls outside the caught tuple
(`json.JSONDecodeError, OSError, IOError`) — e.g. a `UnicodeDecodeError`
from non-UTF-8 bytes left by a torn write of the foreign-owned file —
propagates instead of yielding the "no update" value. -/
theorem pollFull_raises_cex :
    pollFull (.present 1 .uncaughtError) initBridge =
      .error .uncaughtReadError ∧
    initBridge.last_mtime < 1 :=
  ⟨rfl, by decide⟩

/-- C5 amended: `poll` returns the "no update" value `None`, with the
cached snapshot and the mtime cursor unchanged, whenever the file is
missing, its mtime is not newer than the cursor, or the read/parse
raises one of the exception classes its except clause catches
(`json.JSONDecodeError`, `OSError`, `IOError` — covering unreadable
files and malformed JSON); the cache and cursor are updated only on a
successful parse of a strictly newer file, whose state is returned.
However, an exception outside the caught tuple raised while reading or
decoding the file (e.g. `UnicodeDecodeError` on non-UTF-8 content)
propagates to `poll`'s caller, with the bridge state left unchanged. -/
theorem pollFull_failure_semantics (fv : FileViewFull) (b : BridgeState) :
    (fv = .missing → pollFull fv b = .ok (none, b)) ∧
    (∀ mtime read, fv = .present mtime read →
      (mtime ≤ b.last_mtime → pollFull fv b = .ok (none, b)) ∧
      (read = .caughtError → pollFull fv b = .ok (none, b)) ∧
      (∀ st, read = .value st → b.last_mtime < mtime →
        pollFull fv b =
          .ok (some st, { b with last_mtime := mtime,
                                 cached_state := st })) ∧
      (read = .uncaughtError → b.last_mtime < mtime →
        pollFull fv b = .error .uncaughtReadError)) := by
  constructor
  · intro h; subst h; rfl
  · intro mtime read h
    subst h
    refine ⟨fun hle => by simp [pollFull, hle], fun hr => ?_,
            fun st hr hlt => ?_, fun hr hlt => ?_⟩
    · subst hr
      by_cases hle : mtime ≤ b.last_mtime <;> simp [pollFull, hle]
    · subst hr
      simp [pollFull, not_le.mpr hlt]
    · subst hr
      simp [pollFull, not_le.mpr hlt]

/-- Witness for C5 (amended) at concrete inputs, one per behavior. -/
theorem pollFull_failure_semantics_witness :
    pollFull .missing initBridge = .ok (none, initBridge) ∧
    pollFull (.present (-3) (.value ⟨none, none, none⟩)) initBridge =
      .ok (none, initBridge) ∧
    pollFull (.present 4 .caughtError) initBridge = .ok (none, initBridge) ∧
    pollFull (.present 4 (.value ⟨none, none, some []⟩)) initBridge =
      .ok (some ⟨none, none, some []⟩,
        { initBridge with last_mtime := 4,
                          cached_state := ⟨none, none, some []⟩ }) ∧
    pollFull (.present 4 .uncaughtError) initBridge =
      .error .uncaughtReadError :=
  ⟨(pollFull_failure_semantics .missing initBridge).1 rfl,
   ((pollFull_failure_semantics _ initBridge).2 (-3) _ rfl).1 (by decide),
   ((pollFull_failure_semantics _ initBridge).2 4 .caughtError rfl).2.1 rfl,
   (((pollFull_failure_semantics _ initBridge).2 4 _ rfl).2.2.1 _ rfl)
     (by decide),
   (((pollFull_failure_semantics _ initBridge).2 4 _ rfl).2.2.2 rfl)
     (by decide)⟩

lemma get_active_persona_eq (b : BridgeState) :
    get_active_persona b =
      (PHASE_MAP (get_phase b)).getD ("Commander Marcus", "Strategy Hall") :=
  rfl

/-- C8: `get_active_persona` is total over the cached snapshot: the
phase `"Focus"` maps to `("Strategist Livia", "Focus Chamber")`, and
any phase string outside `PHASE_MAP` falls back to the default pair
`("Commander Marcus", "Strategy Hall")`. -/
theorem get_active_persona_total (b : BridgeState) :
    (get_phase b = "Focus" →
      get_active_persona b = ("Strategist Livia", "Focus Chamber")) ∧
    (PHASE_MAP (get_phase b) = none →
      get_active_persona b = ("Commander Marcus", "Strategy Hall")) := by
  constructor
  · intro h
    rw [get_active_persona_eq, h]
    rfl
  · intro h
    rw [get_active_persona_eq, h]
    rfl

/-- A cached snapshot whose phase is `"Focus"`. -/
def bFocus : BridgeState :=
  { initBridge with
    cached_state := ⟨some ⟨none, some "Focus", none⟩, none, none⟩ }

/-- A cached snapshot whose phase string is not a `PHASE_MAP` key. -/
def bUnknownPhase : BridgeState :=
  { initBridge with
    cached_state := ⟨some ⟨none, some "Quarrying Basalt", none⟩, none, none⟩ }

/-- Witness for C8 at concrete snapshots. -/
theorem get_active_persona_total_witness :
    get_active_persona bFocus = ("Strategist Livia", "Focus Chamber") ∧
    get_active_persona bUnknownPhase =
      ("Commander Marcus", "Strategy Hall") :=
  ⟨(get_active_persona_total bFocus).1 (by decide),
   (get_active_persona_total bUnknownPhase).2 (by decide)⟩

/-- C9: the pure accessors return the safe defaults `"init"`, `false`,
`0` when no snapshot has ever been read (the fresh bridge state), and
likewise whenever the cached snapshot or its `meta` dict lacks the
corresponding field. -/
theorem accessor_defaults :
    (get_phase initBridge = "init" ∧ is_running initBridge = false ∧
      get_loop_iteration initBridge = 0) ∧
    ∀ b : BridgeState,
      (b.cached_state.meta = none →
        get_phase b = "init" ∧ is_running b = false ∧
          get_loop_iteration b = 0) ∧
      (∀ m, b.cached_state.meta = some m →
        (m.phase = none → get_phase b = "init") ∧
        (m.running = none → is_running b = false) ∧
        (m.loop_iteration = none → get_loop_iteration b = 0)) := by
  refine ⟨⟨rfl, rfl, rfl⟩, fun b => ⟨fun h => ?_, fun m hm => ?_⟩⟩
  · simp [get_phase, is_running, get_loop_iteration, metaOf, h]
  · refine ⟨fun hp => ?_, fun hr => ?_, fun hl => ?_⟩
    · simp [get_phase, metaOf, hm, hp]
    · simp [is_running, metaOf, hm, hr]
    · simp [get_loop_iteration, metaOf, hm, hl]

/-- A cached snapshot with a `meta` dict missing all three fields. -/
def bEmptyMeta : BridgeState :=
  { initBridge with cached_state := ⟨some ⟨none, none, none⟩, none, none⟩ }

/-- Witness for C9 at a concrete snapshot with an empty `meta` dict. -/
theorem accessor_defaults_witness :
    get_phase bEmptyMeta = "init" ∧ is_running bEmptyMeta = false ∧
      get_loop_iteration bEmptyMeta = 0 :=
  ⟨((accessor_defaults.2 bEmptyMeta).2 ⟨none, none, none⟩ rfl).1 rfl,
   ((accessor_defaults.2 bEmptyMeta).2 ⟨none, none, none⟩ rfl).2.1 rfl,
   ((accessor_defaults.2 bEmptyMeta).2 ⟨none, none, none⟩ rfl).2.2 rfl⟩

end TravianBridge

namespace TravianBridge

lemma applyOp_mtime_mono (op : BridgeOp) (b : BridgeState) :
    b.last_mtime ≤ (applyOp op b).last_mtime := by
  cases op with
  | pollOp fv => exact poll_mtime_mono fv b
  | consumeOp => exact le_of_eq (consume_mtime b).symm
  | phaseChangedOp => exact le_of_eq (hpc_mtime b).symm
  | readOp => exact le_refl _

lemma applyOp_ts_mono (op : BridgeOp) (b : BridgeState) :
    b.last_event_ts ≤ (applyOp op b).last_event_ts := by
  cases op with
  | pollOp fv => exact le_of_eq (poll_ts_eq fv b).symm
  | consumeOp => exact consume_ts_mono b
  | phaseChangedOp => exact le_of_eq (hpc_ts b).symm
  | readOp => exact le_refl _

lemma applyOps_mono (ops : List BridgeOp) :
    ∀ b : BridgeState,
      b.last_mtime ≤ (applyOps ops b).last_mtime ∧
      b.last_event_ts ≤ (applyOps ops b).last_event_ts := by
  induction ops with
  | nil => exact fun b => ⟨le_refl _, le_refl _⟩
  | cons op ops ih =>
    intro b
    have hstep := And.intro (applyOp_mtime_mono op b) (applyOp_ts_mono op b)
    have hrest := ih (applyOp op b)
    exact ⟨le_trans hstep.1 hrest.1, le_trans hstep.2 hrest.2⟩

/-- C10: across every sequence of public bridge operations both cursors
are monotonically non-decreasing; moreover `poll` changes the mtime
cursor only to a strictly larger observed mtime, and
`consume_new_events` changes the event cursor only when it returned a
nonempty batch whose timestamps all strictly exceed the old cursor, the
new cursor being their maximum. -/
theorem bridge_cursors_monotone :
    (∀ (ops : List BridgeOp) (b : BridgeState),
      b.last_mtime ≤ (applyOps ops b).last_mtime ∧
      b.last_event_ts ≤ (applyOps ops b).last_event_ts) ∧
    (∀ (fv : FileView) (b : BridgeState),
      (poll fv b).2.last_mtime ≠ b.last_mtime →
      ∃ mtime parsed, fv = .present mtime parsed ∧
        b.last_mtime < mtime ∧ (poll fv b).2.last_mtime = mtime) ∧
    (∀ b : BridgeState,
      (consume_new_events b).2.last_event_ts ≠ b.last_event_ts →
      (consume_new_events b).1 ≠ [] ∧
      (∀ e ∈ (consume_new_events b).1, b.last_event_ts < tsOf e) ∧
      (∀ e ∈ (consume_new_events b).1,
        tsOf e ≤ (consume_new_events b).2.last_event_ts) ∧
      (∃ e ∈ (consume_new_events b).1,
        tsOf e = (consume_new_events b).2.last_event_ts)) := by
  refine ⟨fun ops b => applyOps_mono ops b, fun fv b hne => ?_, fun b hne => ?_⟩
  · cases fv with
    | missing => exact absurd rfl hne
    | present m p =>
      by_cases hle : m ≤ b.last_mtime
      · rw [show poll (.present m p) b = (none, b) by simp [poll, hle]] at hne
        exact absurd rfl hne
      · cases p with
        | none =>
          rw [show poll (.present m none) b = (none, b) by simp [poll, hle]]
            at hne
          exact absurd rfl hne
        | some st =>
          refine ⟨m, some st, rfl, lt_of_not_le hle, ?_⟩
          simp [poll, hle]
  · rcases heq : get_events_since b b.last_event_ts with _ | ⟨h, t⟩
    · rw [consume_snd_nil heq] at hne
      exact absurd rfl hne
    · have hbatch : (consume_new_events b).1 = h :: t := by
        rw [consume_batch b, heq]
      have hsnd := consume_snd_cons heq
      refine ⟨by rw [hbatch]; exact List.cons_ne_nil h t, ?_, ?_, ?_⟩
      · intro e he
        rw [hbatch] at he
        have : e ∈ get_events_since b b.last_event_ts := by rw [heq]; exact he
        exact (mem_get_events_since.mp this).2
      · intro e he
        rw [hbatch] at he
        rw [hsnd]
        exact mem_le_maxTs h t e he
      · rcases maxTs_attained h t with ⟨x, hx, hfx⟩
        refine ⟨x, by rw [hbatch]; exact hx, ?_⟩
        rw [hsnd]
        exact hfx.symm

/-- A snapshot holding one timestamped event, for the C10 witness. -/
def stOneEvent : BotState :=
  ⟨none, none, some [⟨none, none, none, none, none, some 7⟩]⟩

/-- A bridge state whose cache holds one event newer than the cursor. -/
def bOneEvent : BridgeState :=
  { initBridge with cached_state := stOneEvent }

/-- Witness for C10: a concrete op sequence, a poll that does move the
mtime cursor, and a consume call that does move the event cursor. -/
theorem bridge_cursors_monotone_witness :
    (initBridge.last_mtime ≤
      (applyOps [.pollOp (.present 4 (some stOneEvent)), .consumeOp,
                 .phaseChangedOp, .readOp] initBridge).last_mtime ∧
     initBridge.last_event_ts ≤
      (applyOps [.pollOp (.present 4 (some stOneEvent)), .consumeOp,
                 .phaseChangedOp, .readOp] initBridge).last_event_ts) ∧
    (∃ mtime parsed,
      FileView.present 4 (some stOneEvent) = .present mtime parsed ∧
      initBridge.last_mtime < mtime ∧
      (poll (.present 4 (some stOneEvent)) initBridge).2.last_mtime = mtime) ∧
    ((consume_new_events bOneEvent).1 ≠ [] ∧
     (∀ e ∈ (consume_new_events bOneEvent).1,
       bOneEvent.last_event_ts < tsOf e) ∧
     (∀ e ∈ (consume_new_events bOneEvent).1,
       tsOf e ≤ (consume_new_events bOneEvent).2.last_event_ts) ∧
     (∃ e ∈ (consume_new_events bOneEvent).1,
       tsOf e = (consume_new_events bOneEvent).2.last_event_ts)) :=
  ⟨bridge_cursors_monotone.1 _ initBridge,
   bridge_cursors_monotone.2.1 _ initBridge (by decide),
   bridge_cursors_monotone.2.2 bOneEvent (by decide)⟩

end TravianBridge

namespace TravianBridge

/-- Strictly increasing timestamps along an event sequence. -/
abbrev tsIncreasing (l : List BotEvent) : Prop :=
  List.Pairwise (fun a b => tsOf a < tsOf b) l

lemma setEvents_events (b : BridgeState) (es : List BotEvent) :
    eventsOf (setEvents b es) = es := by
  simp [setEvents, eventsOf]

lemma setEvents_ts (b : BridgeState) (es : List BotEvent) :
    (setEvents b es).last_event_ts = b.last_event_ts := rfl

/-- Once every cached event is at or below the cursor, a run of
`consume_new_events` calls over append-only snapshot extensions with
strictly increasing timestamps returns exactly the appended events, in
order. -/
lemma consumeRun_drained :
    ∀ (chunks : List (List BotEvent)) (b : BridgeState),
      tsIncreasing (eventsOf b ++ chunks.flatten) →
      (∀ e ∈ chunks.flatten, b.last_event_ts < tsOf e) →
      (∀ e ∈ eventsOf b, tsOf e ≤ b.last_event_ts) →
      consumeRun b chunks = chunks.flatten := by
  intro chunks
  induction chunks with
  | nil => intro b _ _ _; rfl
  | cons c rest ih =>
    intro b hinc hnew hold
    rw [List.flatten_cons] at hinc hnew ⊢
    have hges : get_events_since (setEvents b (eventsOf b ++ c))
        (setEvents b (eventsOf b ++ c)).last_event_ts = c := by
      unfold get_events_since
      rw [setEvents_events, setEvents_ts, List.filter_append]
      have h1 : (eventsOf b).filter
          (fun e => decide (b.last_event_ts < tsOf e)) = [] := by
        rw [List.filter_eq_nil_iff]
        intro a ha
        simpa using not_lt.mpr (hold a ha)
      have h2 : c.filter (fun e => decide (b.last_event_ts < tsOf e)) = c := by
        rw [List.filter_eq_self]
        intro a ha
        simpa using hnew a (List.mem_append_left _ ha)
      rw [h1, h2, List.nil_append]
    cases c with
    | nil =>
      have hcons : consume_new_events (setEvents b (eventsOf b ++ [])) =
          ([], setEvents b (eventsOf b ++ [])) := by
        unfold consume_new_events
        rw [hges]
      simp only [consumeRun, hcons, List.nil_append]
      refine ih (setEvents b (eventsOf b ++ [])) ?_ ?_ ?_
      · rw [setEvents_events]
        simpa using hinc
      · intro e he
        rw [setEvents_ts]
        exact hnew e (List.mem_append_right _ he)
      · intro e he
        rw [setEvents_ts]
        rw [setEvents_events, List.append_nil] at he
        exact hold e he
    | cons h t =>
      have hcons : consume_new_events (setEvents b (eventsOf b ++ h :: t)) =
          (h :: t, { setEvents b (eventsOf b ++ h :: t) with
                     last_event_ts := maxTs h t }) := by
        unfold consume_new_events
        rw [hges]
      simp only [consumeRun, hcons]
      have hpair := hinc
      rw [← List.append_assoc] at hpair
      have hsplit := (List.pairwise_append.mp hpair).2.2
      have hcr : ∀ a ∈ h :: t, ∀ e ∈ rest.flatten, tsOf a < tsOf e := by
        intro a ha e he
        exact hsplit a (List.mem_append_right _ ha) e he
      have hrec := ih { setEvents b (eventsOf b ++ h :: t) with
                        last_event_ts := maxTs h t } ?_ ?_ ?_
      · rw [hrec]
      · show tsIncreasing (eventsOf (setEvents b (eventsOf b ++ h :: t)) ++ _)
        rw [setEvents_events]
        rw [← List.append_assoc] at hinc
        exact hinc
      · intro e he
        exact maxTs_lt h t (tsOf e)
          (hcr h (List.mem_cons_self h t) e he)
          (fun x hx => hcr x (List.mem_cons_of_mem h hx) e he)
      · intro e he
        show tsOf e ≤ maxTs h t
        have he' : e ∈ eventsOf b ++ h :: t := by
          simpa [eventsOf, setEvents] using he
        rcases List.mem_append.mp he' with h0 | hc
        · have h1 : tsOf e ≤ b.last_event_ts := hold e h0
          have h2 : b.last_event_ts < tsOf h :=
            hnew h (List.mem_append_left _ (List.mem_cons_self h t))
          exact le_trans h1 (le_trans (le_of_lt h2) (le_maxTs h t))
        · exact mem_le_maxTs h t e hc

/-- An event with timestamp 0 — equal to the fresh bridge's cursor. -/
def evTs0 : BotEvent := ⟨none, none, none, none, none, some 0⟩

/-- An event with timestamp 1. -/
def evTs1 : BotEvent := ⟨none, none, none, none, none, some 1⟩

/-- C3 counterexample: a strictly increasing event sequence whose first
timestamp equals the fresh bridge's initial cursor (0).  The run of
`consume_new_events` calls returns only the second event: the first is
below the cursor `last_event_ts = 0.0` set by `__init__`, so it is
skipped forever — the union of the returned batches has a gap. -/
theorem consume_partition_cex :
    tsIncreasing [evTs0, evTs1] ∧
    consumeRun initBridge [[evTs0, evTs1]] = [evTs1] ∧
    evTs0 ∉ consumeRun initBridge [[evTs0, evTs1]] := by
  refine ⟨?_, rfl, ?_⟩ <;> decide

/-- C3 amended: each `consume_new_events` call returns exactly the
cached events with timestamp strictly above `last_event_ts`, leaves the
state unchanged when that batch is empty, and otherwise advances the
cursor to the maximum returned timestamp; consequently, over any
append-only evolution of the snapshot whose timestamps are strictly
increasing **and all strictly positive** (i.e. strictly above the fresh
bridge's initial cursor 0), repeated calls partition the stream exactly
once: the concatenation of all returned batches is the full event
sequence, with no duplicates and no gaps. -/
theorem consume_partition_amended :
    (∀ b : BridgeState,
      (consume_new_events b).1 =
        (eventsOf b).filter (fun e => decide (b.last_event_ts < tsOf e))) ∧
    (∀ b : BridgeState, (consume_new_events b).1 = [] →
      (consume_new_events b).2 = b) ∧
    (∀ b : BridgeState, (consume_new_events b).1 ≠ [] →
      (∀ e ∈ (consume_new_events b).1, b.last_event_ts < tsOf e) ∧
      (∀ e ∈ (consume_new_events b).1,
        tsOf e ≤ (consume_new_events b).2.last_event_ts) ∧
      (∃ e ∈ (consume_new_events b).1,
        tsOf e = (consume_new_events b).2.last_event_ts)) ∧
    (∀ chunks : List (List BotEvent),
      tsIncreasing chunks.flatten →
      (∀ e ∈ chunks.flatten, 0 < tsOf e) →
      consumeRun initBridge chunks = chunks.flatten) := by
  refine ⟨fun b => consume_batch b, fun b hb => ?_, fun b hb => ?_, ?_⟩
  · rcases heq : get_events_since b b.last_event_ts with _ | ⟨h, t⟩
    · exact consume_snd_nil heq
    · rw [consume_batch b, heq] at hb
      cases hb
  · rcases heq : get_events_since b b.last_event_ts with _ | ⟨h, t⟩
    · rw [consume_batch b, heq] at hb
      exact absurd rfl hb
    · have hbatch : (consume_new_events b).1 = h :: t := by
        rw [consume_batch b, heq]
      have hsnd := consume_snd_cons heq
      refine ⟨?_, ?_, ?_⟩
      · intro e he
        rw [hbatch] at he
        have : e ∈ get_events_since b b.last_event_ts := by rw [heq]; exact he
        exact (mem_get_events_since.mp this).2
      · intro e he
        rw [hbatch] at he
        rw [hsnd]
        exact mem_le_maxTs h t e he
      · rcases maxTs_attained h t with ⟨x, hx, hfx⟩
        exact ⟨x, by rw [hbatch]; exact hx, by rw [hsnd]; exact hfx.symm⟩
  · intro chunks hinc hpos
    refine consumeRun_drained chunks initBridge ?_ ?_ ?_
    · simpa [initBridge, eventsOf] using hinc
    · intro e he
      exact hpos e he
    · intro e he
      simp [initBridge, eventsOf] at he

/-- Witness for C3 (amended) at concrete inputs: a two-call run over an
appended stream, and a consume call with a nonempty batch. -/
theorem consume_partition_amended_witness :
    consumeRun initBridge [[evTs1], []] = [evTs1] ∧
    (∀ e ∈ (consume_new_events bOneEvent).1,
      bOneEvent.last_event_ts < tsOf e) :=
  ⟨consume_partition_amended.2.2.2 [[evTs1], []] (by decide) (by decide),
   (consume_partition_amended.2.2.1 bOneEvent (by decide)).1⟩

end TravianBridge

namespace TravianBridge

/-- A `build_start` bot event with the given timestamp. -/
def buildEv (n : Int) : BotEvent :=
  ⟨some "build_start", none, none, none, none, some n⟩

/-- A snapshot carrying six new events (timestamps 1..6). -/
def stSixEvents : BotState :=
  ⟨none, none,
   some [buildEv 1, buildEv 2, buildEv 3, buildEv 4, buildEv 5, buildEv 6]⟩

/-- The persona set for the C1 scenario: only the persona responsible
for `build_start` events. -/
def psGaius : List String := ["Builder Gaius"]

/-- The snapshot file as seen in the first cycle (mtime 1). -/
def fvCycle1 : FileView := .present 1 (some stSixEvents)

/-- The snapshot file as seen in the second cycle (newer mtime 2, same
contents). -/
def fvCycle2 : FileView := .present 2 (some stSixEvents)

/-- C1 counterexample: in a cycle where six new bridge events arrive,
only the first five are routed as memory events (`new_events[:5]`); the
sixth is NOT redelivered in the following cycle — `consume_new_events`
already advanced `last_event_ts` past it, so the excess event is
dropped, not queued. -/
theorem fold_bridge_cap_cex :
    (consume_new_events
      (has_phase_changed (poll fvCycle1 initBridge).2).2).1.length = 6 ∧
    (foldBridge psGaius fvCycle1 initBridge).1.event_whispers.length = 5 ∧
    (foldBridge psGaius fvCycle2
      (foldBridge psGaius fvCycle1 initBridge).2).1.event_whispers = [] :=
  ⟨rfl, rfl, rfl⟩

/-- C1 amended: per update cycle at most 5 new bridge events are routed
to agents as memory events; but excess new events beyond the first 5
are not queued for later cycles — after the FOLD_BRIDGE block every
event of the polled snapshot has its timestamp at or below the event
cursor, so an event not routed in its arrival cycle is never routed. -/
theorem fold_bridge_cap_amended (personas : List String) (fv : FileView)
    (b : BridgeState) :
    (foldBridge personas fv b).1.event_whispers.length ≤ 5 ∧
    (∀ st, (poll fv b).1 = some st → stateTruthy st = true →
      ∀ e ∈ st.events.getD [],
        tsOf e ≤ (foldBridge personas fv b).2.last_event_ts) := by
  rcases hpoll : (poll fv b).1 with _ | st
  · constructor
    · simp [foldBridge, hpoll]
    · intro st hsome
      cases hsome
  · by_cases htr : stateTruthy st = true
    · have hcache : (has_phase_changed (poll fv b).2).2.cached_state = st := by
        rw [hpc_cached, poll_some_cached hpoll]
      constructor
      · simp only [foldBridge, hpoll, htr, if_true]
        exact le_trans (List.length_filterMap_le _ _)
          (List.length_take_le 5 _)
      · intro st' hsome htr' e he
        injection hsome with hst
        subst hst
        have hev : e ∈ eventsOf (has_phase_changed (poll fv b).2).2 := by
          unfold eventsOf
          rw [hcache]
          exact he
        have hdr := consume_drains (has_phase_changed (poll fv b).2).2 e hev
        simpa [foldBridge, hpoll, htr] using hdr
    · constructor
      · simp [foldBridge, hpoll, htr]
      · intro st' hsome htr'
        injection hsome with hst
        subst hst
        exact absurd htr' htr

/-- Witness for C1 (amended) on the six-event scenario. -/
theorem fold_bridge_cap_amended_witness :
    (foldBridge psGaius fvCycle1 initBridge).1.event_whispers.length ≤ 5 ∧
    (∀ e ∈ stSixEvents.events.getD [],
      tsOf e ≤ (foldBridge psGaius fvCycle1 initBridge).2.last_event_ts) :=
  ⟨(fold_bridge_cap_amended psGaius fvCycle1 initBridge).1,
   (fold_bridge_cap_amended psGaius fvCycle1 initBridge).2 stSixEvents rfl
     rfl⟩

end TravianBridge

namespace Reverie

open TravianBridge

lemma cleanupPhase_step (s : SimState) : (cleanupPhase s).step = s.step := rfl

lemma cleanupPhase_time (s : SimState) :
    (cleanupPhase s).curr_time = s.curr_time := rfl

lemma cleanupPhase_sec (s : SimState) :
    (cleanupPhase s).sec_per_step = s.sec_per_step := rfl

lemma moveOne_ok_fields {s : SimState} {a : AgentIn} {s' : SimState}
    (h : moveOne s a = .ok s') :
    s'.step = s.step ∧ s'.curr_time = s.curr_time ∧
    s'.sec_per_step = s.sec_per_step ∧ s'.bridge = s.bridge := by
  unfold moveOne at h
  rcases hp : a.pos with _ | p
  · rw [hp] at h; cases h
  · rw [hp] at h
    dsimp only at h
    split at h <;> (injection h with h'; subst h'; exact ⟨rfl, rfl, rfl, rfl⟩)

lemma moveOne_err_state {s : SimState} {a : AgentIn} {n : String}
    {sErr : SimState} (h : moveOne s a = .error (n, sErr)) : sErr = s := by
  unfold moveOne at h
  rcases hp : a.pos with _ | p
  · rw [hp] at h
    injection h with h'
    exact (congrArg Prod.snd h').symm
  · rw [hp] at h
    dsimp only at h
    split at h <;> cases h

lemma moveOne_total {s : SimState} {a : AgentIn}
    (hp : a.pos.isSome = true) : ∃ s', moveOne s a = .ok s' := by
  rcases Option.isSome_iff_exists.mp hp with ⟨p, hpp⟩
  unfold moveOne
  rw [hpp]
  dsimp only
  split
  · exact ⟨_, rfl⟩
  · exact ⟨_, rfl⟩

lemma movePersonas_ok_fields :
    ∀ (ags : List AgentIn) {s s2 : SimState},
      movePersonas s ags = .ok s2 →
      s2.step = s.step ∧ s2.curr_time = s.curr_time ∧
      s2.sec_per_step = s.sec_per_step ∧ s2.bridge = s.bridge := by
  intro ags
  induction ags with
  | nil =>
    intro s s2 h
    injection h with h'
    subst h'
    exact ⟨rfl, rfl, rfl, rfl⟩
  | cons a rest ih =>
    intro s s2 h
    unfold movePersonas at h
    rcases hm : moveOne s a with e | s'
    · rw [hm] at h; cases h
    · rw [hm] at h
      have h1 := moveOne_ok_fields hm
      have h2 := ih h
      exact ⟨h2.1.trans h1.1, h2.2.1.trans h1.2.1,
             h2.2.2.1.trans h1.2.2.1, h2.2.2.2.trans h1.2.2.2⟩

lemma movePersonas_err_fields :
    ∀ (ags : List AgentIn) {s : SimState} {n : String} {sErr : SimState},
      movePersonas s ags = .error (n, sErr) →
      sErr.step = s.step ∧ sErr.curr_time = s.curr_time ∧
      sErr.sec_per_step = s.sec_per_step := by
  intro ags
  induction ags with
  | nil => intro s n sErr h; cases h
  | cons a rest ih =>
    intro s n sErr h
    unfold movePersonas at h
    rcases hm : moveOne s a with e | s'
    · rw [hm] at h
      injection h with h'
      rcases e with ⟨n', sE⟩
      have : sE = s := moveOne_err_state hm
      subst this
      have h2 : sErr = sE := by
        have := congrArg Prod.snd h'
        exact this.symm
      subst h2
      exact ⟨rfl, rfl, rfl⟩
    · rw [hm] at h
      have h1 := moveOne_ok_fields hm
      have h2 := ih h
      exact ⟨h2.1.trans h1.1, h2.2.1.trans h1.2.1, h2.2.2.trans h1.2.2.1⟩

lemma movePersonas_total :
    ∀ (ags : List AgentIn) (s : SimState),
      (∀ a ∈ ags, a.pos.isSome = true) →
      ∃ s2, movePersonas s ags = .ok s2 := by
  intro ags
  induction ags with
  | nil => exact fun s _ => ⟨s, rfl⟩
  | cons a rest ih =>
    intro s hok
    rcases moveOne_total (s := s) (hok a (List.mem_cons_self a rest)) with
      ⟨s', hs'⟩
    rcases ih s' (fun x hx => hok x (List.mem_cons_of_mem a hx)) with ⟨s2, hs2⟩
    refine ⟨s2, ?_⟩
    unfold movePersonas
    rw [hs']
    exact hs2

lemma collectMoves_total :
    ∀ ags : List AgentIn,
      (∀ a ∈ ags, a.decision.isSome = true) →
      ∃ l, collectMoves ags = .ok l := by
  intro ags
  induction ags with
  | nil => exact fun _ => ⟨[], rfl⟩
  | cons a rest ih =>
    intro hok
    rcases Option.isSome_iff_exists.mp
      (hok a (List.mem_cons_self a rest)) with ⟨d, hd⟩
    rcases ih (fun x hx => hok x (List.mem_cons_of_mem a hx)) with ⟨l, hl⟩
    refine ⟨(a.name, d) :: l, ?_⟩
    unfold collectMoves
    rw [hd, hl]

lemma runCycle_some_inv {ci : CycleIn} {s : SimState}
    {out : Nat × Movements} {s' : SimState}
    (h : runCycle ci s = .ok (some out, s')) :
    out.1 = s.step ∧ s'.step = s.step + 1 ∧
    s'.curr_time = s.curr_time + s.sec_per_step ∧
    s'.sec_per_step = s.sec_per_step := by
  cases ci with
  | absent =>
    injection h with h'
    exact absurd (congrArg Prod.fst h').symm (by simp)
  | unparsable =>
    injection h with h'
    exact absurd (congrArg Prod.fst h').symm (by simp)
  | parsed ags fv =>
    unfold runCycle at h
    dsimp only at h
    rcases hm : movePersonas (cleanupPhase s) ags with ⟨n, sErr⟩ | s2
    · rw [hm] at h
      dsimp only at h
      cases h
    · rw [hm] at h
      dsimp only at h
      rcases hl : collectMoves ags with n | l
      · rw [hl] at h
        dsimp only at h
        cases h
      · rw [hl] at h
        dsimp only at h
        injection h with h'
        have h1 := congrArg Prod.fst h'
        have h2 := congrArg Prod.snd h'
        dsimp only at h1 h2
        injection h1 with h1'
        subst h1'
        subst h2
        have hf := movePersonas_ok_fields ags hm
        refine ⟨hf.1, ?_, ?_, hf.2.2.1⟩
        · show s2.step + 1 = s.step + 1
          rw [show s2.step = (cleanupPhase s).step from hf.1]
          rfl
        · show s2.curr_time + s2.sec_per_step = s.curr_time + s.sec_per_step
          rw [show s2.curr_time = (cleanupPhase s).curr_time from hf.2.1,
              show s2.sec_per_step = (cleanupPhase s).sec_per_step
                from hf.2.2.1]
          rfl

lemma runCycle_parsed_ok (ags : List AgentIn) (fv : FileView) (s : SimState)
    (hok : ∀ a ∈ ags, a.pos.isSome = true ∧ a.decision.isSome = true) :
    ∃ out s', runCycle (.parsed ags fv) s = .ok (some out, s') ∧
      out.1 = s.step ∧ s'.step = s.step + 1 ∧
      s'.curr_time = s.curr_time + s.sec_per_step ∧
      s'.sec_per_step = s.sec_per_step := by
  rcases movePersonas_total ags (cleanupPhase s)
    (fun a ha => (hok a ha).1) with ⟨s2, hs2⟩
  rcases collectMoves_total ags (fun a ha => (hok a ha).2) with ⟨l, hl⟩
  have hex : ∃ out s', runCycle (.parsed ags fv) s = .ok (some out, s') := by
    unfold runCycle
    dsimp only
    rw [hs2, hl]
    exact ⟨_, _, rfl⟩
  rcases hex with ⟨out, s', hrc⟩
  have hinv := runCycle_some_inv hrc
  exact ⟨out, s', hrc, hinv.1, hinv.2.1, hinv.2.2.1, hinv.2.2.2⟩

end Reverie

namespace Reverie

open TravianBridge

lemma runSim_absent (n : Nat) (s : SimState) (rest : List CycleIn) :
    runSim (n + 1) s (.absent :: rest) = runSim (n + 1) s rest := rfl

lemma runSim_unparsable (n : Nat) (s : SimState) (rest : List CycleIn) :
    runSim (n + 1) s (.unparsable :: rest) = runSim (n + 1) s rest := rfl

lemma runSim_unfold_cons (n : Nat) (s : SimState) (ci : CycleIn)
    (rest : List CycleIn) :
    runSim (n + 1) s (ci :: rest) =
      match runCycle ci s with
      | .error (e, s') => RunOut.crashed e s' []
      | .ok (none, s') => runSim (n + 1) s' rest
      | .ok (some out, s') =>
        match runSim n s' rest with
        | .finished s'' outs => .finished s'' (out :: outs)
        | .running c s'' outs => .running c s'' (out :: outs)
        | .crashed e s'' outs => .crashed e s'' (out :: outs) := rfl

lemma runSim_crash {ci : CycleIn} {s : SimState} {e : SimError}
    {s' : SimState} (n : Nat) (rest : List CycleIn)
    (h : runCycle ci s = .error (e, s')) :
    runSim (n + 1) s (ci :: rest) = .crashed e s' [] := by
  rw [runSim_unfold_cons, h]

lemma runSim_step {ci : CycleIn} {s : SimState} {out : Nat × Movements}
    {s' : SimState} (n : Nat) (rest : List CycleIn)
    (h : runCycle ci s = .ok (some out, s')) :
    runSim (n + 1) s (ci :: rest) =
      match runSim n s' rest with
      | .finished s'' outs => .finished s'' (out :: outs)
      | .running c s'' outs => .running c s'' (out :: outs)
      | .crashed e s'' outs => .crashed e s'' (out :: outs) := by
  rw [runSim_unfold_cons, h]

/-- Decidability of the no-uncaught-exception property of one cycle
input, for concrete witnesses. -/
instance (ci : CycleIn) : Decidable (cycleOK ci) :=
  match ci with
  | .absent => .isTrue trivial
  | .unparsable => .isTrue trivial
  | .parsed ags _ =>
    inferInstanceAs
      (Decidable (∀ a ∈ ags, a.pos.isSome = true ∧ a.decision.isSome = true))

lemma runSim_budget :
    ∀ (ins : List CycleIn) (N : Nat) (s : SimState),
      (∀ ci ∈ ins, cycleOK ci) →
      N ≤ ins.countP isParsedIn →
      ∃ s' outs, runSim N s ins = .finished s' outs ∧
        outs.length = N ∧
        outs.map Prod.fst = List.range' s.step N ∧
        s'.step = s.step + N ∧
        s'.curr_time = s.curr_time + (N : Int) * s.sec_per_step ∧
        s'.sec_per_step = s.sec_per_step := by
  intro ins
  induction ins with
  | nil =>
    intro N s _ hN
    have hN0 : N = 0 := Nat.le_zero.mp (by simpa using hN)
    subst hN0
    exact ⟨s, [], rfl, rfl, rfl, rfl, by simp, rfl⟩
  | cons ci rest ih =>
    intro N s hok hN
    cases N with
    | zero => exact ⟨s, [], rfl, rfl, rfl, rfl, by simp, rfl⟩
    | succ n =>
      cases ci with
      | absent =>
        rw [runSim_absent]
        have hcount : (CycleIn.absent :: rest).countP isParsedIn =
            rest.countP isParsedIn := by
          simp [List.countP_cons, isParsedIn]
        exact ih (n + 1) s (fun c hc => hok c (List.mem_cons_of_mem _ hc))
          (by rw [← hcount]; exact hN)
      | unparsable =>
        rw [runSim_unparsable]
        have hcount : (CycleIn.unparsable :: rest).countP isParsedIn =
            rest.countP isParsedIn := by
          simp [List.countP_cons, isParsedIn]
        exact ih (n + 1) s (fun c hc => hok c (List.mem_cons_of_mem _ hc))
          (by rw [← hcount]; exact hN)
      | parsed ags fv =>
        have hcyc := hok _ (List.mem_cons_self _ rest)
        rcases runCycle_parsed_ok ags fv s hcyc with
          ⟨out, s', hrc, hout, hstep, htime, hsec⟩
        have hN' : n ≤ rest.countP isParsedIn := by
          have hc : (CycleIn.parsed ags fv :: rest).countP isParsedIn =
              rest.countP isParsedIn + 1 := by
            simp [List.countP_cons, isParsedIn]
          rw [hc] at hN
          omega
        rcases ih n s' (fun c hc => hok c (List.mem_cons_of_mem _ hc)) hN'
          with ⟨s'', outs, hrun, hlen, hkeys, hstep'', htime'', hsec''⟩
        rw [runSim_step n rest hrc, hrun]
        refine ⟨s'', out :: outs, rfl, by simp [hlen], ?_, ?_, ?_, ?_⟩
        · rw [List.map_cons, hkeys, hout, hstep]
          rfl
        · rw [hstep'', hstep]
          omega
        · rw [htime'', htime, hsec]
          push_cast
          ring
        · rw [hsec'', hsec]

end Reverie

namespace Reverie

open TravianBridge

/-- C6: a successful cycle writes the movement file keyed by the very
step whose environment file it consumed, and only afterwards advances
the step counter by exactly 1 and the clock by exactly `sec_per_step`;
for any initial cycle budget N (with enough eventually-successful
inputs) the loop finishes exactly when the budget reaches zero, having
completed exactly N successful cycles, keyed consecutively. -/
theorem step_synchronizer_budget :
    (∀ (ci : CycleIn) (s : SimState) (out : Nat × Movements)
       (s' : SimState),
      runCycle ci s = .ok (some out, s') →
      out.1 = s.step ∧ s'.step = s.step + 1 ∧
      s'.curr_time = s.curr_time + s.sec_per_step) ∧
    (∀ (ins : List CycleIn) (N : Nat) (s : SimState),
      (∀ ci ∈ ins, cycleOK ci) →
      N ≤ ins.countP isParsedIn →
      ∃ s' outs, runSim N s ins = .finished s' outs ∧
        outs.length = N ∧
        outs.map Prod.fst = List.range' s.step N ∧
        s'.step = s.step + N ∧
        s'.curr_time = s.curr_time + (N : Int) * s.sec_per_step) := by
  constructor
  · intro ci s out s' h
    have hinv := runCycle_some_inv h
    exact ⟨hinv.1, hinv.2.1, hinv.2.2.1⟩
  · intro ins N s h1 h2
    rcases runSim_budget ins N s h1 h2 with
      ⟨s', outs, ha, hb, hc, hd, he, _⟩
    exact ⟨s', outs, ha, hb, hc, hd, he⟩

/-- A persona whose position decodes and whose decision returns. -/
def agW : AgentIn :=
  { name := "Isabella Rodriguez", pos := some (1, 2),
    curr_event := ("Isabella Rodriguez", none, none, none),
    obj_event := ("cafe:counter", some "is", some "busy", some "busy"),
    planned_path_empty := true,
    decision := some ⟨(3, 4), "☕", "making coffee", ""⟩ }

/-- A concrete initial server state. -/
def s0W : SimState :=
  { step := 10, curr_time := 0, sec_per_step := 10,
    personas_tile := fun _ => (0, 0), maze := fun _ => [],
    bridge := initBridge, game_obj_cleanup := [] }

/-- Trace for the C6 witness: two successful cycles around one
waiting iteration. -/
def insW : List CycleIn :=
  [.parsed [agW] .missing, .absent, .parsed [agW] .missing]

/-- Witness for C6: a concrete 2-cycle budget run. -/
theorem step_synchronizer_budget_witness :
    ∃ s' outs, runSim 2 s0W insW = .finished s' outs ∧
      outs.length = 2 ∧
      outs.map Prod.fst = List.range' s0W.step 2 ∧
      s'.step = s0W.step + 2 ∧
      s'.curr_time = s0W.curr_time + (2 : Int) * s0W.sec_per_step :=
  step_synchronizer_budget.2 insW 2 s0W (by decide) (by decide)

/-- The persona `agW` with a decision that raises. -/
def agNoDecision : AgentIn := { agW with decision := none }

/-- The persona `agW` whose position fails to decode. -/
def agNoPos : AgentIn := { agW with pos := none }

/-- A trace whose first cycle has a failing decision and whose second
cycle would succeed, were the first retried. -/
def cexTrace : List CycleIn :=
  [.parsed [agNoDecision] .missing, .parsed [agW] .missing]

/-- Same, with a failing position decode instead. -/
def cexTraceDecode : List CycleIn :=
  [.parsed [agNoPos] .missing, .parsed [agW] .missing]

/-- C2 counterexample: an exception in one agent's decision (or in
decoding one agent's position from the parsed input) is NOT caught
within the cycle — the loop crashes instead of abandoning and retrying
the cycle, even though a retry with the next input would have
succeeded.  (The step counter is indeed not advanced and no output file
is written.) -/
theorem cycle_fault_cex :
    (runSim 1 s0W cexTrace).errOf =
      some (.decisionError "Isabella Rodriguez") ∧
    (runSim 1 s0W cexTrace).outsOf = [] ∧
    (runSim 1 s0W cexTrace).stateOf.step = s0W.step ∧
    (runSim 1 s0W cexTrace).stateOf.curr_time = s0W.curr_time ∧
    (runSim 1 s0W cexTraceDecode).errOf =
      some (.decodeError "Isabella Rodriguez") ∧
    (runSim 1 s0W cexTraceDecode).outsOf = [] :=
  ⟨rfl, rfl, rfl, rfl, rfl, rfl⟩

lemma runCycle_err_inv {ci : CycleIn} {s : SimState} {e : SimError}
    {s' : SimState} (h : runCycle ci s = .error (e, s')) :
    s'.step = s.step ∧ s'.curr_time = s.curr_time := by
  cases ci with
  | absent => cases h
  | unparsable => cases h
  | parsed ags fv =>
    unfold runCycle at h
    dsimp only at h
    rcases hm : movePersonas (cleanupPhase s) ags with ⟨n, sErr⟩ | s2
    · rw [hm] at h
      dsimp only at h
      injection h with h'
      have h2 := congrArg Prod.snd h'
      dsimp only at h2
      subst h2
      have hf := movePersonas_err_fields ags hm
      exact ⟨hf.1, hf.2.1⟩
    · rw [hm] at h
      dsimp only at h
      rcases hl : collectMoves ags with n | l
      · rw [hl] at h
        dsimp only at h
        injection h with h'
        have h2 := congrArg Prod.snd h'
        dsimp only at h2
        subst h2
        have hf := movePersonas_ok_fields ags hm
        exact ⟨hf.1, hf.2.1⟩
      · rw [hl] at h
        dsimp only at h
        cases h

/-- C2 amended: only an exception while reading or parsing the step's
input file is caught, in which case the cycle is abandoned with the
server state untouched and retried on the next iteration; an exception
while decoding one agent's position from the parsed input, or while an
agent's decision is computed, propagates uncaught out of the loop —
though even then the step counter is not advanced and no output file
has been written for the failed cycle. -/
theorem cycle_fault_amended :
    (∀ (n : Nat) (s : SimState) (rest : List CycleIn),
      runSim (n + 1) s (.absent :: rest) = runSim (n + 1) s rest ∧
      runSim (n + 1) s (.unparsable :: rest) = runSim (n + 1) s rest) ∧
    (∀ (ci : CycleIn) (s : SimState) (e : SimError) (s' : SimState),
      runCycle ci s = .error (e, s') →
      s'.step = s.step ∧ s'.curr_time = s.curr_time) ∧
    (∀ (n : Nat) (s : SimState) (ci : CycleIn) (rest : List CycleIn)
       (e : SimError) (s' : SimState),
      runCycle ci s = .error (e, s') →
      runSim (n + 1) s (ci :: rest) = .crashed e s' []) :=
  ⟨fun n s rest => ⟨runSim_absent n s rest, runSim_unparsable n s rest⟩,
   fun _ _ _ _ h => runCycle_err_inv h,
   fun n _ _ rest _ _ h => runSim_crash n rest h⟩

/-- The server state at the moment the C2 scenario's uncaught decision
fault escapes the loop. -/
def crashStateW : SimState := (runSim 1 s0W cexTrace).stateOf

/-- Witness for C2 (amended) on the concrete faulting trace. -/
theorem cycle_fault_amended_witness :
    (runSim 1 s0W (CycleIn.absent :: []) = runSim 1 s0W []) ∧
    (crashStateW.step = s0W.step ∧
      crashStateW.curr_time = s0W.curr_time) ∧
    runSim 1 s0W cexTrace =
      .crashed (.decisionError "Isabella Rodriguez") crashStateW [] :=
  ⟨(cycle_fault_amended.1 0 s0W []).1,
   cycle_fault_amended.2.1 (.parsed [agNoDecision] .missing) s0W
     (.decisionError "Isabella Rodriguez") crashStateW rfl,
   cycle_fault_amended.2.2 0 s0W (.parsed [agNoDecision] .missing)
     [.parsed [agW] .missing]
     (.decisionError "Isabella Rodriguez") crashStateW rfl⟩

end Reverie

namespace Reverie

open TravianBridge

end Reverie
